import Mathlib

/-!
Shallow embedding of the ACA2025 gem5 lab benchmark kernels (eight small C
programs) and proofs about them.  Arrays are modelled as total functions on
natural-number indices; every kernel loop is a fold over the exact index
range the C loop visits.  Floating-point values in the kernels under study
are either small integers or dyadic rationals on which the C float or double
arithmetic is exact, so they are embedded as integers or rationals; where a
claim depends only on determinism or on which cells are written, the value
type does not matter and the embedding notes this at the definition.
-/

/-- Pointwise update of a two-index array at row i, column j: this models the
C assignment M[i][j] = v on a 2-D array or pointer-to-row image. -/
def upd2 {α : Type} (M : ℕ → ℕ → α) (i j : ℕ) (v : α) : ℕ → ℕ → α :=
  fun i2 j2 => if i2 = i ∧ j2 = j then v else M i2 j2

/-- Pointwise update of a one-index array at i: models h[i] = v. -/
def upd1 {α : Type} (f : ℕ → α) (i : ℕ) (v : α) : ℕ → α :=
  fun i2 => if i2 = i then v else f i2

namespace MatMul

variable {α : Type} [Add α] [Mul α]

/-- Left fold of acc + A[i][k] * B[k][j] over k in [0, m): the dot-product
accumulation both multiplication kernels perform for one cell, in increasing
k order. -/
def dotAcc (A B : ℕ → ℕ → α) (i j : ℕ) (x : α) (m : ℕ) : α :=
  List.foldl (fun acc k => acc + A i k * B k j) x (List.range m)

/-- Innermost k-loop of matrix_multiply_naive in Lab_2/kernels/mmm.c:
for k in [0, n): C[i][j] += A[i][k] * B[k][j]. -/
def kLoop (A B M : ℕ → ℕ → α) (i j n : ℕ) : ℕ → ℕ → α :=
  List.foldl (fun M k => upd2 M i j (M i j + A i k * B k j)) M (List.range n)

/-- The ijk-ordered multiply of Lab_2/kernels/mmm.c (matrix_multiply_naive):
for i, for j, for k: C[i][j] += A[i][k] * B[k][j]. -/
def matrix_multiply_naive (A B M : ℕ → ℕ → α) (n : ℕ) : ℕ → ℕ → α :=
  List.foldl (fun M i => List.foldl (fun M j => kLoop A B M i j n) M (List.range n))
    M (List.range n)

/-- Innermost j-loop of matrix_multiply in kernels/matrix_mult_unopt.c:
for j in [0, n): C[i][j] += A[i][k] * B[k][j]. -/
def jLoop (A B M : ℕ → ℕ → α) (i k n : ℕ) : ℕ → ℕ → α :=
  List.foldl (fun M j => upd2 M i j (M i j + A i k * B k j)) M (List.range n)

/-- The ikj-ordered multiply of kernels/matrix_mult_unopt.c (matrix_multiply):
for i, for k, for j: C[i][j] += A[i][k] * B[k][j]. -/
def matrix_multiply (A B M : ℕ → ℕ → α) (n : ℕ) : ℕ → ℕ → α :=
  List.foldl (fun M i => List.foldl (fun M k => jLoop A B M i k n) M (List.range n))
    M (List.range n)

end MatMul

namespace Mmm

/-- Matrix dimension N of Lab_2/kernels/mmm.c. -/
def N : ℕ := 128

/-- Contents of A after init_matrices: A[i][j] = i + j.  The C program stores
these as float; every value and every partial sum of the multiply is an
integer of magnitude below 2^24, on which float arithmetic is exact, so the
embedding uses ℤ. -/
def A : ℕ → ℕ → ℤ := fun i j => (i : ℤ) + (j : ℤ)

/-- Contents of B after init_matrices: B[i][j] = i - j (exact in float, as
for A). -/
def B : ℕ → ℕ → ℤ := fun i j => (i : ℤ) - (j : ℤ)

/-- Contents of C after init_matrices (all zeros) followed by
matrix_multiply_naive. -/
def C : ℕ → ℕ → ℤ := MatMul.matrix_multiply_naive A B (fun _ _ => 0) N

end Mmm

namespace StreamBench

/-- ARRAY_SIZE of kernels/stream_bench.c: 1024 * 1024 doubles per array. -/
def ARRAY_SIZE : ℕ := 1024 * 1024

/-- REPEAT_COUNT of kernels/stream_bench.c. -/
def REPEAT_COUNT : ℕ := 10

/-- stream_copy(a, b, n): b[i] = a[i] for i < n; returns the new b.  All
values produced by this benchmark are dyadic rationals (products and sums of
1.0, 2.0, 2.5, 1.5) that double arithmetic represents exactly, so arrays are
embedded as ℕ → ℚ. -/
def stream_copy (a b : ℕ → ℚ) (n : ℕ) : ℕ → ℚ :=
  fun i => if i < n then a i else b i

/-- stream_scale(a, b, scalar, n): b[i] = scalar * a[i]; returns the new b. -/
def stream_scale (a b : ℕ → ℚ) (scalar : ℚ) (n : ℕ) : ℕ → ℚ :=
  fun i => if i < n then scalar * a i else b i

/-- stream_add(a, b, c, n): c[i] = a[i] + b[i]; returns the new c. -/
def stream_add (a b c : ℕ → ℚ) (n : ℕ) : ℕ → ℚ :=
  fun i => if i < n then a i + b i else c i

/-- stream_triad(a, b, c, scalar, n): a[i] = b[i] + scalar * c[i]; returns
the new a. -/
def stream_triad (a b c : ℕ → ℚ) (scalar : ℚ) (n : ℕ) : ℕ → ℚ :=
  fun i => if i < n then b i + scalar * c i else a i

/-- The three heap arrays of stream_bench.c. -/
structure State where (a b c : ℕ → ℚ)

/-- initialize_arrays: a[i] = 1.0, b[i] = 2.0, c[i] = 0.0 for i < n.  Indices
at or beyond n model malloc memory the program never initializes or reads;
the embedding leaves them 0 and every theorem restricts to i < n. -/
def initialize_arrays (n : ℕ) : State :=
  ⟨fun i => if i < n then 1 else 0, fun i => if i < n then 2 else 0,
   fun i => if i < n then 0 else 0⟩

/-- One iteration of the repeat loop in main: stream_copy(a, c),
stream_scale(c, b, 2.5), stream_add(a, b, c), stream_triad(a, b, c, 1.5),
each reading the arrays as left by the previous call. -/
def streamPass (n : ℕ) (s : State) : State :=
  let c1 := stream_copy s.a s.c n
  let b1 := stream_scale c1 s.b (5/2) n
  let c2 := stream_add s.a b1 c1 n
  let a1 := stream_triad s.a b1 c2 (3/2) n
  ⟨a1, b1, c2⟩

/-- State of the three arrays after k passes of the repeat loop, starting
from the initialize_arrays state. -/
def runStream (k : ℕ) : State :=
  (streamPass ARRAY_SIZE)^[k] (initialize_arrays ARRAY_SIZE)

end StreamBench

namespace Kernel4

/-- STRIDE of Lab_2/kernels/kernel4.c. -/
def STRIDE : ℕ := 4096

/-- NUM_ACCESSES of Lab_2/kernels/kernel4.c. -/
def NUM_ACCESSES : ℕ := 10000

/-- BLOCK_SIZE of Lab_2/kernels/kernel4.c. -/
def BLOCK_SIZE : ℕ := 64

/-- ARRAY_SIZE = STRIDE * NUM_ACCESSES, the length of the global int array A. -/
def ARRAY_SIZE : ℕ := STRIDE * NUM_ACCESSES

/-- The values taken by block in the loop
for (block = 0; block < NUM_ACCESSES; block += BLOCK_SIZE), modelled with a
fuel argument (NUM_ACCESSES is enough fuel since block grows by at least 1
per iteration). -/
def blockLoop (fuel b : ℕ) : List ℕ :=
  match fuel with
  | 0 => []
  | fuel + 1 => if b < NUM_ACCESSES then b :: blockLoop fuel (b + BLOCK_SIZE) else []

/-- All block start values visited by the outer loop of main. -/
def blockStarts : List ℕ := blockLoop NUM_ACCESSES 0

/-- Every index at which the inner loop reads A: (block + i) * STRIDE for
each visited block and each i in [0, BLOCK_SIZE). -/
def accessedIndices : List ℕ :=
  blockStarts.flatMap (fun block => (List.range BLOCK_SIZE).map (fun i => (block + i) * STRIDE))

end Kernel4

namespace ExitCodes

/-- Exit code of stream_bench.c main as a function of whether each of the
three malloc calls fails: if (!a || !b || !c) return 1, else the program runs
to completion and returns 0. -/
def stream_bench_exit (aFail bFail cFail : Bool) : ℕ :=
  if aFail || bFail || cFail then 1 else 0

/-- Whether stream_bench.c prints the "Memory allocation failed" line: exactly
on the return-1 path. -/
def stream_bench_reports_alloc_failure (aFail bFail cFail : Bool) : Bool :=
  aFail || bFail || cFail

/-- Exit code of Lab_2/kernels/mmm.c main (unconditional return 0; the
program performs no allocation). -/
def mmm_exit : ℕ := 0

/-- Exit code of kernels/kernel5.c main (unconditional return 0; global
arrays, no allocation). -/
def kernel5_exit : ℕ := 0

/-- Exit code of kernels/matrix_mult_unopt.c main on completion: its mallocs
are never checked (no allocation-failure handling exists in the program) and
the single return statement returns 0. -/
def matrix_mult_exit : ℕ := 0

/-- Exit code of kernels/image_blur_unopt.c main on completion: its mallocs
are never checked and the single return statement returns 0. -/
def image_blur_exit : ℕ := 0

/-- Exit code of Lab_1/kernels/kernel2.c main (unconditional return 0). -/
def lab1_kernel2_exit : ℕ := 0

/-- Exit code of Lab_2/kernels/kernel2.c main (unconditional return 0). -/
def lab2_kernel2_exit : ℕ := 0

/-- Exit code of Lab_2/kernels/kernel4.c main (unconditional return 0). -/
def lab2_kernel4_exit : ℕ := 0

end ExitCodes

namespace MatrixMult

/-- SIZE of kernels/matrix_mult_unopt.c. -/
def SIZE : ℕ := 256

/-- initialize_matrix of matrix_mult_unopt.c with the C library rand modelled
as an abstract deterministic stream next : ℕ → ℚ index by call count (after
srand(42) the t-th rand() call returns a value determined by the seed alone).
The fold threads the running call count t through the row-major double loop
and stores matrix[i][j] = (rand() % 100) / 10.0; it returns the filled matrix
and the updated call count.  The C program rounds each quotient to double;
rounding is a deterministic function of the exact rational, so the ℚ
embedding preserves every determinism statement. -/
def initialize_matrix (next : ℕ → ℕ) (M : ℕ → ℕ → ℚ) (t0 n : ℕ) :
    (ℕ → ℕ → ℚ) × ℕ :=
  List.foldl
    (fun p i =>
      List.foldl
        (fun (p : (ℕ → ℕ → ℚ) × ℕ) j =>
          (upd2 p.1 i j (((next p.2 % 100 : ℕ) : ℚ) / 10), p.2 + 1))
        p (List.range n))
    (M, t0) (List.range n)

/-- Matrix A after initialize_matrix(A, SIZE), consuming the rand stream from
call 0.  The malloc backing store is modelled as all zeros; every cell the
program reads is overwritten first. -/
def matAInit (next : ℕ → ℕ) : ℕ → ℕ → ℚ :=
  (initialize_matrix next (fun _ _ => 0) 0 SIZE).1

/-- Number of rand() calls consumed by initializing A. -/
def randCountA (next : ℕ → ℕ) : ℕ :=
  (initialize_matrix next (fun _ _ => 0) 0 SIZE).2

/-- Matrix B after initialize_matrix(B, SIZE), consuming the stream where A
left off. -/
def matBInit (next : ℕ → ℕ) : ℕ → ℕ → ℚ :=
  (initialize_matrix next (fun _ _ => 0) (randCountA next) SIZE).1

/-- Matrix C after zero_matrix(C, SIZE) and matrix_multiply(A, B, C, SIZE). -/
def matCFinal (next : ℕ → ℕ) : ℕ → ℕ → ℚ :=
  MatMul.matrix_multiply (matAInit next) (matBInit next) (fun _ _ => 0) SIZE

/-- The two checksum values main prints: C[0][0] and C[100][100]. -/
def checksums (next : ℕ → ℕ) : ℚ × ℚ :=
  (matCFinal next 0 0, matCFinal next 100 100)

end MatrixMult

namespace Lab2K2

/-- N of Lab_2/kernels/kernel2.c. -/
def N : ℕ := 100000

/-- Contents of A after the init loop: A[i] = rand() % 100, the i-th call of
the rand stream (rand without srand behaves as srand(1), a fixed seed; one
call per iteration). -/
def AInit (next : ℕ → ℕ) (i : ℕ) : ℕ := next i % 100

/-- The final sum: for i in [0, N), if A[i] % 2 == 0 then sum += A[i].  All
values fit in int, so ℤ is exact. -/
def sumFinal (next : ℕ → ℕ) : ℤ :=
  List.foldl (fun s i => if AInit next i % 2 = 0 then s + (AInit next i : ℤ) else s)
    0 (List.range N)

end Lab2K2

namespace Kernel5

/-- SIZE of kernels/kernel5.c. -/
def SIZE : ℕ := 10000

/-- idx[i] = rand() % SIZE, the i-th call of the rand stream (rand without
srand behaves as srand(1); one call per init-loop iteration). -/
def idxArr (next : ℕ → ℕ) (i : ℕ) : ℕ := next i % SIZE

/-- h after its init loop: h[i] = i for i < SIZE (global float arrays are
zero beyond that; the kernel only accesses indices below SIZE). -/
def hInit : ℕ → ℚ := fun i => if i < SIZE then (i : ℚ) else 0

/-- w after its init loop: w[i] = SIZE - i for i < SIZE. -/
def wInit : ℕ → ℚ := fun i => if i < SIZE then (SIZE : ℚ) - (i : ℚ) else 0

/-- h after the update loop: for i in [0, SIZE), h[idx[i]] += w[i].  The C
program uses float, which may round large accumulated sums; rounding is a
deterministic function of its operands, so the exact-ℚ embedding preserves
every determinism statement about this loop. -/
def hFinal (next : ℕ → ℕ) : ℕ → ℚ :=
  List.foldl (fun h i => upd1 h (idxArr next i) (h (idxArr next i) + wInit i))
    hInit (List.range SIZE)

end Kernel5

namespace Lab1K2

/-- SIZE of Lab_1/kernels/kernel2.c. -/
def SIZE : ℕ := 10000

/-- Contents of A after the init loop: A[i] = i * 0.5f.  Every such value is
a multiple of 1/2 with magnitude below 2^24, exact in float, so ℚ is a
faithful embedding. -/
def A (i : ℕ) : ℚ := (i : ℚ) * (1/2)

/-- Contents of B after the init loop: B[i] = SIZE - i * 0.5f (exact in
float, as for A). -/
def B (i : ℕ) : ℚ := (SIZE : ℚ) - (i : ℚ) * (1/2)

/-- The final value of sum: for i in [0, SIZE), diff = A[i] - B[i];
if diff > 0 then sum += diff. -/
def sumFinal : ℚ :=
  List.foldl (fun s i => let d := A i - B i; if d > 0 then s + d else s)
    0 (List.range SIZE)

end Lab1K2

namespace ImageBlur

/-- WIDTH of kernels/image_blur_unopt.c. -/
def WIDTH : ℕ := 512

/-- HEIGHT of kernels/image_blur_unopt.c. -/
def HEIGHT : ℕ := 512

/-- KERNEL_SIZE of kernels/image_blur_unopt.c. -/
def KERNEL_SIZE : ℕ := 5

/-- The 5x5 convolution kernel literal of image_blur. -/
def blurKernel : List (List ℕ) :=
  [[1,1,1,1,1],[1,2,2,2,1],[1,2,3,2,1],[1,2,2,2,1],[1,1,1,1,1]]

/-- kernel_sum of image_blur. -/
def kernel_sum : ℕ := 35

/-- Entry kernel[r][c] of the convolution kernel. -/
def kernelAt (r c : ℕ) : ℕ := (blurKernel.getD r []).getD c 0

/-- The convolution sum at pixel (x, y): for kx, ky in [-2, 2],
sum += input[y + ky][x + kx] * kernel[ky + 2][kx + 2].  The C loop variables
kx, ky run over [-2, 2]; here m ranges over [0, 5) with kx = m - 2, so the
input row is y + ky - 2 in truncated ℕ subtraction, which agrees with the C
index because image_blur only evaluates this at x, y at least 2. -/
def convAt (input : ℕ → ℕ → ℕ) (x y : ℕ) : ℕ :=
  List.foldl
    (fun s kx =>
      List.foldl (fun s ky => s + input (y + ky - 2) (x + kx - 2) * kernelAt ky kx)
        s (List.range KERNEL_SIZE))
    0 (List.range KERNEL_SIZE)

/-- image_blur of image_blur_unopt.c: for x in [2, width - 2), for y in
[2, height - 2), output[y][x] = sum / kernel_sum (stored to unsigned char,
hence the mod-256 reduction of the C conversion).  The list
List.range' 2 (width - 4) is exactly the x values the C loop visits, also for
widths below 4 where the range is empty. -/
def image_blur (input output : ℕ → ℕ → ℕ) (width height : ℕ) : ℕ → ℕ → ℕ :=
  List.foldl
    (fun out x =>
      List.foldl (fun out y => upd2 out y x (convAt input x y / kernel_sum % 256))
        out (List.range' 2 (height - 4)))
    output (List.range' 2 (width - 4))

/-- initialize_image of image_blur_unopt.c: for x in [0, width), for y in
[0, height), image[y][x] = (x + y) % 256 (column-major write order, as in the
source). -/
def initialize_image (image : ℕ → ℕ → ℕ) (width height : ℕ) : ℕ → ℕ → ℕ :=
  List.foldl
    (fun img x =>
      List.foldl (fun img y => upd2 img y x ((x + y) % 256)) img (List.range height))
    image (List.range width)

end ImageBlur

/-- One line printed to standard output, abstracted to whether it reports the
clock-measured elapsed time (or a value computed from it) and whether it
reports a checksum or result value computed from the arrays. -/
structure PrintedLine where (hasTiming : Bool) (hasChecksum : Bool)

namespace Outputs

/-- image_blur_unopt.c prints a completion-time line and then a checksum line
(output[100][100], output[200][200]). -/
def imageBlurLines : List PrintedLine := [⟨true, false⟩, ⟨false, true⟩]

/-- kernel5.c prints only the literal line Done. with neither timing nor
checksum content. -/
def kernel5Lines : List PrintedLine := [⟨false, false⟩]

/-- matrix_mult_unopt.c prints a completion-time line and a checksum line
(C[0][0], C[100][100]). -/
def matrixMultLines : List PrintedLine := [⟨true, false⟩, ⟨false, true⟩]

/-- stream_bench.c on the successful path prints a completion-time line, a
checksum line (a[100], b[100]) and a bandwidth line computed from the
elapsed time. -/
def streamBenchLines : List PrintedLine := [⟨true, false⟩, ⟨false, true⟩, ⟨true, false⟩]

/-- Lab_1/kernels/kernel2.c prints a single Result line with the final sum
and no timing. -/
def lab1Kernel2Lines : List PrintedLine := [⟨false, true⟩]

/-- Lab_2/kernels/kernel2.c prints a single Sum line and no timing. -/
def lab2Kernel2Lines : List PrintedLine := [⟨false, true⟩]

/-- Lab_2/kernels/kernel4.c prints a single Sum line and no timing. -/
def lab2Kernel4Lines : List PrintedLine := [⟨false, true⟩]

/-- Lab_2/kernels/mmm.c prints one combined line holding both C[0][0] and the
elapsed time. -/
def mmmLines : List PrintedLine := [⟨true, true⟩]

/-- Whether some printed line reports timing. -/
def printsTimingLine (l : List PrintedLine) : Bool := l.any (fun p => p.hasTiming)

/-- Whether some printed line reports a checksum or result. -/
def printsChecksumLine (l : List PrintedLine) : Bool := l.any (fun p => p.hasChecksum)

end Outputs

/-! ## Helper lemmas about pointwise array updates -/

theorem upd2_apply_self {α : Type} (M : ℕ → ℕ → α) (i j : ℕ) (v : α) :
    upd2 M i j v i j = v := by
  simp [upd2]

theorem upd2_apply_ne {α : Type} (M : ℕ → ℕ → α) (i j i2 j2 : ℕ) (v : α)
    (h : ¬(i2 = i ∧ j2 = j)) : upd2 M i j v i2 j2 = M i2 j2 := by
  simp [upd2, h]

theorem upd2_read_self {α : Type} (M : ℕ → ℕ → α) (i j : ℕ) :
    upd2 M i j (M i j) = M := by
  funext i2 j2
  by_cases h : i2 = i ∧ j2 = j
  · obtain ⟨rfl, rfl⟩ := h
    simp [upd2]
  · simp [upd2, h]

theorem upd2_upd2 {α : Type} (M : ℕ → ℕ → α) (i j : ℕ) (v w : α) :
    upd2 (upd2 M i j v) i j w = upd2 M i j w := by
  funext i2 j2
  by_cases h : i2 = i ∧ j2 = j
  · obtain ⟨rfl, rfl⟩ := h
    simp [upd2]
  · simp [upd2, h]

namespace MatMul

variable {α : Type} [Add α] [Mul α]

theorem dotAcc_zero (A B : ℕ → ℕ → α) (i j : ℕ) (x : α) :
    dotAcc A B i j x 0 = x := rfl

theorem dotAcc_succ (A B : ℕ → ℕ → α) (i j : ℕ) (x : α) (m : ℕ) :
    dotAcc A B i j x (m + 1) = dotAcc A B i j x m + A i m * B m j := by
  simp [dotAcc, List.range_succ]

/-- The k-loop of the ijk ordering touches only cell (i, j), where it leaves
the increasing-k accumulation of A[i][k] * B[k][j] on top of the old value. -/
theorem kLoop_eq (A B : ℕ → ℕ → α) (i j : ℕ) :
    ∀ (n : ℕ) (M : ℕ → ℕ → α), kLoop A B M i j n = upd2 M i j (dotAcc A B i j (M i j) n) := by
  intro n
  induction n with
  | zero =>
    intro M
    simp [kLoop, dotAcc_zero, upd2_read_self]
  | succ n ih =>
    intro M
    show List.foldl _ M (List.range (n + 1)) = _
    rw [List.range_succ, List.foldl_append, List.foldl_cons, List.foldl_nil]
    have hX : List.foldl (fun M k => upd2 M i j (M i j + A i k * B k j)) M (List.range n)
        = upd2 M i j (dotAcc A B i j (M i j) n) := ih M
    rw [hX, upd2_apply_self, upd2_upd2, ← dotAcc_succ]

/-- The j-loop of the ikj ordering adds A[i][k] * B[k][j] to every cell of
row i with column below m, and touches nothing else. -/
theorem jFold_eq (A B : ℕ → ℕ → α) (i k : ℕ) :
    ∀ (m : ℕ) (M : ℕ → ℕ → α),
      List.foldl (fun M j => upd2 M i j (M i j + A i k * B k j)) M (List.range m)
        = fun i2 j2 => if i2 = i ∧ j2 < m then M i j2 + A i k * B k j2 else M i2 j2 := by
  intro m
  induction m with
  | zero =>
    intro M
    funext i2 j2
    simp
  | succ m ih =>
    intro M
    rw [List.range_succ, List.foldl_append, List.foldl_cons, List.foldl_nil, ih M]
    funext i2 j2
    by_cases h : i2 = i ∧ j2 = m
    · obtain ⟨rfl, rfl⟩ := h
      rw [upd2_apply_self]
      simp
    · rw [upd2_apply_ne _ _ _ _ _ _ h]
      by_cases h2 : i2 = i ∧ j2 < m
      · obtain ⟨rfl, h2⟩ := h2
        simp [h2, Nat.lt_succ_of_lt h2]
      · have h3 : ¬(i2 = i ∧ j2 < m + 1) := by
          rintro ⟨rfl, hlt⟩
          rcases Nat.lt_succ_iff_lt_or_eq.mp hlt with h4 | rfl
          · exact h2 ⟨rfl, h4⟩
          · exact h ⟨rfl, rfl⟩
        simp only [if_neg h2, if_neg h3]

/-- The k-loop of the ikj ordering: after m iterations, every cell of row i
with column below n holds the increasing-k accumulation over [0, m). -/
theorem ikjKFold_eq (A B : ℕ → ℕ → α) (n i : ℕ) :
    ∀ (m : ℕ) (M : ℕ → ℕ → α),
      List.foldl (fun M k => jLoop A B M i k n) M (List.range m)
        = fun i2 j2 => if i2 = i ∧ j2 < n then dotAcc A B i j2 (M i j2) m else M i2 j2 := by
  intro m
  induction m with
  | zero =>
    intro M
    funext i2 j2
    by_cases h : i2 = i ∧ j2 < n
    · obtain ⟨rfl, h⟩ := h
      simp [h, dotAcc_zero]
    · simp [h]
  | succ m ih =>
    intro M
    rw [List.range_succ, List.foldl_append, List.foldl_cons, List.foldl_nil, ih M]
    show jLoop A B _ i m n = _
    rw [jLoop, jFold_eq A B i m n]
    funext i2 j2
    by_cases h : i2 = i ∧ j2 < n
    · obtain ⟨rfl, h⟩ := h
      simp only [h, and_true, if_pos rfl, if_true, true_and, if_pos h, dotAcc_succ]
    · have h2 : ¬(i2 = i ∧ j2 < n) := h
      simp only [if_neg h2]

/-- The j-loop of the ijk ordering: after m iterations, every cell of row i
with column below m holds the full increasing-k accumulation over [0, n). -/
theorem ijkJFold_eq (A B : ℕ → ℕ → α) (n i : ℕ) :
    ∀ (m : ℕ) (M : ℕ → ℕ → α),
      List.foldl (fun M j => kLoop A B M i j n) M (List.range m)
        = fun i2 j2 => if i2 = i ∧ j2 < m then dotAcc A B i j2 (M i j2) n else M i2 j2 := by
  intro m
  induction m with
  | zero =>
    intro M
    funext i2 j2
    simp
  | succ m ih =>
    intro M
    rw [List.range_succ, List.foldl_append, List.foldl_cons, List.foldl_nil, ih M,
      kLoop_eq A B i m n]
    funext i2 j2
    by_cases h : i2 = i ∧ j2 = m
    · obtain ⟨rfl, rfl⟩ := h
      rw [upd2_apply_self]
      simp
    · rw [upd2_apply_ne _ _ _ _ _ _ h]
      by_cases h2 : i2 = i ∧ j2 < m
      · obtain ⟨rfl, h2⟩ := h2
        simp [h2, Nat.lt_succ_of_lt h2]
      · have h3 : ¬(i2 = i ∧ j2 < m + 1) := by
          rintro ⟨rfl, hlt⟩
          rcases Nat.lt_succ_iff_lt_or_eq.mp hlt with h4 | rfl
          · exact h2 ⟨rfl, h4⟩
          · exact h ⟨rfl, rfl⟩
        simp only [if_neg h2, if_neg h3]

/-- Common outer i-loop: if each row step rewrites exactly row i with the
full dot accumulation, the whole loop rewrites every cell with row below m
and column below n. -/
theorem outerFold_eq (A B : ℕ → ℕ → α) (n : ℕ) (R : (ℕ → ℕ → α) → ℕ → (ℕ → ℕ → α))
    (hR : ∀ (M : ℕ → ℕ → α) (i i2 j2 : ℕ),
      R M i i2 j2 = if i2 = i ∧ j2 < n then dotAcc A B i2 j2 (M i2 j2) n else M i2 j2) :
    ∀ (m : ℕ) (M : ℕ → ℕ → α) (i2 j2 : ℕ),
      List.foldl R M (List.range m) i2 j2
        = if i2 < m ∧ j2 < n then dotAcc A B i2 j2 (M i2 j2) n else M i2 j2 := by
  intro m
  induction m with
  | zero =>
    intro M i2 j2
    rw [List.range_zero, List.foldl_nil, if_neg]
    rintro ⟨h0, _⟩
    exact Nat.not_lt_zero i2 h0
  | succ m ih =>
    intro M i2 j2
    rw [List.range_succ, List.foldl_append, List.foldl_cons, List.foldl_nil,
      hR (List.foldl R M (List.range m)) m i2 j2, ih M i2 j2]
    by_cases hc : i2 = m ∧ j2 < n
    · have hn : ¬(i2 < m ∧ j2 < n) := by
        rintro ⟨hq, _⟩
        omega
      have hlt : i2 < m + 1 := by omega
      rw [if_pos hc, if_neg hn, if_pos (And.intro hlt hc.2)]
    · rw [if_neg hc]
      by_cases h2 : i2 < m ∧ j2 < n
      · rw [if_pos h2, if_pos (And.intro (Nat.lt_succ_of_lt h2.1) h2.2)]
      · have h3 : ¬(i2 < m + 1 ∧ j2 < n) := by
          rintro ⟨hlt, hn2⟩
          rcases Nat.lt_succ_iff_lt_or_eq.mp hlt with h4 | rfl
          · exact h2 ⟨h4, hn2⟩
          · exact hc ⟨rfl, hn2⟩
        rw [if_neg h2, if_neg h3]

/-- Cell-level description of the ijk multiply of mmm.c. -/
theorem matrix_multiply_naive_eq (A B M : ℕ → ℕ → α) (n : ℕ) :
    matrix_multiply_naive A B M n
      = fun i2 j2 => if i2 < n ∧ j2 < n then dotAcc A B i2 j2 (M i2 j2) n else M i2 j2 := by
  funext i2 j2
  refine outerFold_eq A B n _ ?_ n M i2 j2
  intro M i i3 j3
  rw [congrFun (congrFun (ijkJFold_eq A B n i n M) i3) j3]
  by_cases h : i3 = i ∧ j3 < n
  · rw [if_pos h, if_pos h, h.1]
  · rw [if_neg h, if_neg h]

/-- Cell-level description of the ikj multiply of matrix_mult_unopt.c. -/
theorem matrix_multiply_eq (A B M : ℕ → ℕ → α) (n : ℕ) :
    matrix_multiply A B M n
      = fun i2 j2 => if i2 < n ∧ j2 < n then dotAcc A B i2 j2 (M i2 j2) n else M i2 j2 := by
  funext i2 j2
  refine outerFold_eq A B n _ ?_ n M i2 j2
  intro M i i3 j3
  rw [congrFun (congrFun (ikjKFold_eq A B n i n M) i3) j3]
  by_cases h : i3 = i ∧ j3 < n
  · rw [if_pos h, if_pos h, h.1]
  · rw [if_neg h, if_neg h]

end MatMul

/-- Claim C6: the ikj-ordered matrix_multiply of matrix_mult_unopt.c and the
ijk-ordered matrix_multiply_naive of mmm.c produce identical result matrices
for every size n and all inputs A, B with C initially all zeros; the proof
holds for an arbitrary type with addition and multiplication (no
associativity or commutativity used), so each cell is built by the same
increasing-k additions in both orderings and the agreement survives
floating-point addition. -/
theorem matmul_loop_orders_agree {α : Type} [Add α] [Mul α] [Zero α]
    (A B : ℕ → ℕ → α) (n : ℕ) :
    MatMul.matrix_multiply A B (fun _ _ => 0) n
      = MatMul.matrix_multiply_naive A B (fun _ _ => 0) n := by
  rw [MatMul.matrix_multiply_eq, MatMul.matrix_multiply_naive_eq]

/-- Claim C1: in mmm.c after init_matrices and matrix_multiply_naive, C[0][0]
is the dot product of row 0 of A and column 0 of B, accumulated by a left
fold in increasing k order over [0, 128). -/
theorem mmm_c00_eq_first_dot_product :
    Mmm.C 0 0 = List.foldl (fun acc k => acc + Mmm.A 0 k * Mmm.B k 0) 0 (List.range 128) := by
  show MatMul.matrix_multiply_naive Mmm.A Mmm.B (fun _ _ => 0) Mmm.N 0 0 = _
  rw [MatMul.matrix_multiply_naive_eq]
  norm_num [Mmm.N, MatMul.dotAcc]

namespace StreamBench

/-- One pass of the stream repeat loop on arrays that are uniformly x on
[0, n): afterwards a is 31/4 of x, b is 5/2 of x and c is 7/2 of x there.
Only the old a is read by the pass. -/
theorem streamPass_uniform (n : ℕ) (s : State) (x : ℚ)
    (ha : ∀ i, i < n → s.a i = x) :
    (∀ i, i < n → (streamPass n s).a i = (31/4) * x) ∧
    (∀ i, i < n → (streamPass n s).b i = (5/2) * x) ∧
    (∀ i, i < n → (streamPass n s).c i = (7/2) * x) := by
  refine ⟨?_, ?_, ?_⟩ <;> intro i hi <;>
    simp only [streamPass, stream_copy, stream_scale, stream_add, stream_triad,
      if_pos hi, ha i hi] <;> ring

/-- Closed form of the three arrays after m + 1 passes: each is uniform on
[0, ARRAY_SIZE) with a geometric growth of ratio 31/4 per pass. -/
theorem runStream_closed (m : ℕ) :
    (∀ i, i < ARRAY_SIZE → (runStream (m + 1)).a i = (31/4)^(m+1)) ∧
    (∀ i, i < ARRAY_SIZE → (runStream (m + 1)).b i = (5/2) * (31/4)^m) ∧
    (∀ i, i < ARRAY_SIZE → (runStream (m + 1)).c i = (7/2) * (31/4)^m) := by
  induction m with
  | zero =>
    have h0 : ∀ i, i < ARRAY_SIZE → (initialize_arrays ARRAY_SIZE).a i = 1 := by
      intro i hi
      simp [initialize_arrays, if_pos hi]
    have hrun : runStream 1 = streamPass ARRAY_SIZE (initialize_arrays ARRAY_SIZE) := by
      simp [runStream]
    obtain ⟨hA, hB, hC⟩ := streamPass_uniform ARRAY_SIZE (initialize_arrays ARRAY_SIZE) 1 h0
    refine ⟨?_, ?_, ?_⟩ <;> intro i hi <;> rw [hrun]
    · rw [hA i hi]; norm_num
    · rw [hB i hi]; norm_num
    · rw [hC i hi]; norm_num
  | succ m ih =>
    obtain ⟨ihA, ihB, ihC⟩ := ih
    have hrun : runStream (m + 2) = streamPass ARRAY_SIZE (runStream (m + 1)) := by
      rw [runStream, runStream, Function.iterate_succ_apply']
    obtain ⟨hA, hB, hC⟩ :=
      streamPass_uniform ARRAY_SIZE (runStream (m + 1)) ((31/4)^(m+1)) ihA
    refine ⟨?_, ?_, ?_⟩ <;> intro i hi <;> rw [hrun]
    · rw [hA i hi]; ring
    · rw [hB i hi]
    · rw [hC i hi]

end StreamBench

/-- Claim C2 counterexample: already after the first pass of the repeat loop
the triad-scalar identity fails at index 100: a[100] is 31/4 while
1.5 * c[100] is 21/4. -/
theorem stream_triad_identity_fails_first_pass :
    ¬ ((StreamBench.runStream 1).a 100
        = (3/2) * (StreamBench.runStream 1).c 100) := by
  obtain ⟨hA, _, hC⟩ := StreamBench.runStream_closed 0
  have h100 : (100 : ℕ) < StreamBench.ARRAY_SIZE := by norm_num [StreamBench.ARRAY_SIZE]
  rw [hA 100 h100, hC 100 h100]
  norm_num

/-- Claim C2 (amended): after each pass of the repeated stream sequence the
arrays satisfy a[i] = (31/14) * c[i] for every index i below ARRAY_SIZE, and
this holds across all REPEAT_COUNT passes; the ratio is 31/14, not the triad
scalar 1.5, because the triad writes a = b + 1.5 * c after c was rebuilt by
copy, scale and add. -/
theorem stream_pass_ratio_invariant (k i : ℕ) (hk1 : 1 ≤ k)
    (hk2 : k ≤ StreamBench.REPEAT_COUNT) (hi : i < StreamBench.ARRAY_SIZE) :
    (StreamBench.runStream k).a i = (31/14) * (StreamBench.runStream k).c i := by
  obtain ⟨m, rfl⟩ : ∃ m, k = m + 1 := ⟨k - 1, by omega⟩
  obtain ⟨hA, _, hC⟩ := StreamBench.runStream_closed m
  rw [hA i hi, hC i hi]
  ring

/-- Witness for stream_pass_ratio_invariant at the final pass and index 100. -/
theorem stream_pass_ratio_invariant_witness :
    (1 ≤ 10 ∧ 10 ≤ StreamBench.REPEAT_COUNT ∧ 100 < StreamBench.ARRAY_SIZE) ∧
    (StreamBench.runStream 10).a 100 = (31/14) * (StreamBench.runStream 10).c 100 := by
  refine ⟨⟨by norm_num, by norm_num [StreamBench.REPEAT_COUNT], by norm_num [StreamBench.ARRAY_SIZE]⟩, ?_⟩
  exact stream_pass_ratio_invariant 10 100 (by norm_num)
    (by norm_num [StreamBench.REPEAT_COUNT]) (by norm_num [StreamBench.ARRAY_SIZE])

namespace Kernel4

/-- Unfolding step of the block loop while the guard holds. -/
theorem blockLoop_cons (fuel b : ℕ) (h : b < NUM_ACCESSES) :
    blockLoop (fuel + 1) b = b :: blockLoop fuel (b + BLOCK_SIZE) := by
  rw [blockLoop, if_pos h]

/-- Every multiple-of-BLOCK_SIZE offset below NUM_ACCESSES is a visited block
start, given enough fuel. -/
theorem blockLoop_mem_multiple :
    ∀ (t fuel b : ℕ), t < fuel → b + t * BLOCK_SIZE < NUM_ACCESSES →
      b + t * BLOCK_SIZE ∈ blockLoop fuel b := by
  intro t
  induction t with
  | zero =>
    intro fuel b hf hb
    obtain ⟨f, rfl⟩ : ∃ f, fuel = f + 1 := ⟨fuel - 1, by omega⟩
    simp only [Nat.zero_mul, Nat.add_zero] at hb ⊢
    rw [blockLoop_cons f b hb]
    exact List.mem_cons_self b _
  | succ t ih =>
    intro fuel b hf hb
    obtain ⟨f, rfl⟩ : ∃ f, fuel = f + 1 := ⟨fuel - 1, by omega⟩
    have hbN : b < NUM_ACCESSES := by
      have hle : b ≤ b + (t + 1) * BLOCK_SIZE := Nat.le_add_right _ _
      omega
    rw [blockLoop_cons f b hbN]
    have heq : b + (t + 1) * BLOCK_SIZE = (b + BLOCK_SIZE) + t * BLOCK_SIZE := by ring
    rw [heq] at hb ⊢
    exact List.mem_cons_of_mem b (ih f (b + BLOCK_SIZE) (by omega) hb)

/-- The block start 9984 is visited: it is 156 * BLOCK_SIZE and lies below
NUM_ACCESSES. -/
theorem mem_blockStarts_9984 : 9984 ∈ blockStarts := by
  have h := blockLoop_mem_multiple 156 NUM_ACCESSES 0
    (by norm_num [NUM_ACCESSES]) (by norm_num [BLOCK_SIZE, NUM_ACCESSES])
  rw [blockStarts]
  have heq : 0 + 156 * BLOCK_SIZE = 9984 := by norm_num [BLOCK_SIZE]
  rwa [heq] at h

end Kernel4

/-- Claim C3 (refuted, code bug): the blocked TLB loop of kernel4.c reaches
block = 9984 (a visited block start) and i = 16, whose read index
(9984 + 16) * STRIDE equals ARRAY_SIZE exactly, which is not below
ARRAY_SIZE: the access A[(block + i) * STRIDE] is out of bounds because
NUM_ACCESSES = 10000 is not a multiple of BLOCK_SIZE = 64, so the last block
of the outer loop overruns the array. -/
theorem kernel4_last_block_reads_out_of_bounds :
    9984 ∈ Kernel4.blockStarts ∧ 16 < Kernel4.BLOCK_SIZE ∧
    (9984 + 16) * Kernel4.STRIDE ∈ Kernel4.accessedIndices ∧
    (9984 + 16) * Kernel4.STRIDE = Kernel4.ARRAY_SIZE ∧
    ¬ ((9984 + 16) * Kernel4.STRIDE < Kernel4.ARRAY_SIZE) := by
  refine ⟨Kernel4.mem_blockStarts_9984, by norm_num [Kernel4.BLOCK_SIZE], ?_,
    by norm_num [Kernel4.STRIDE, Kernel4.ARRAY_SIZE, Kernel4.NUM_ACCESSES],
    by norm_num [Kernel4.STRIDE, Kernel4.ARRAY_SIZE, Kernel4.NUM_ACCESSES]⟩
  rw [Kernel4.accessedIndices, List.mem_flatMap]
  refine ⟨9984, Kernel4.mem_blockStarts_9984, ?_⟩
  rw [List.mem_map]
  exact ⟨16, by decide, rfl⟩

/-- Claim C4: stream_bench.c returns 1 exactly when some malloc fails and 0
otherwise, printing the allocation-failure message exactly on the failing
runs, while every other program of the repository returns exit code 0 on
completion (none of them checks an allocation or has any nonzero return). -/
theorem repository_exit_codes :
    (∀ aFail bFail cFail : Bool,
      (ExitCodes.stream_bench_exit aFail bFail cFail = 1 ↔
        (aFail = true ∨ bFail = true ∨ cFail = true)) ∧
      (ExitCodes.stream_bench_exit aFail bFail cFail = 0 ↔
        (aFail = false ∧ bFail = false ∧ cFail = false)) ∧
      (ExitCodes.stream_bench_reports_alloc_failure aFail bFail cFail = true ↔
        ExitCodes.stream_bench_exit aFail bFail cFail = 1)) ∧
    ExitCodes.mmm_exit = 0 ∧ ExitCodes.kernel5_exit = 0 ∧
    ExitCodes.matrix_mult_exit = 0 ∧ ExitCodes.image_blur_exit = 0 ∧
    ExitCodes.lab1_kernel2_exit = 0 ∧ ExitCodes.lab2_kernel2_exit = 0 ∧
    ExitCodes.lab2_kernel4_exit = 0 := by
  refine ⟨?_, rfl, rfl, rfl, rfl, rfl, rfl, rfl⟩
  decide

/-- Claim C5: the kernels that consume the seeded C rand stream are
deterministic: two runs against the same rand stream (the same libc rand
implementation with the same fixed seed) produce the same final matrix C and
the same printed checksums in matrix_mult_unopt.c, the same final sum in
Lab_2/kernels/kernel2.c and the same final h array in kernel5.c. -/
theorem rand_kernels_deterministic (s1 s2 : ℕ → ℕ) (h : ∀ t, s1 t = s2 t) :
    MatrixMult.checksums s1 = MatrixMult.checksums s2 ∧
    (∀ i j, MatrixMult.matCFinal s1 i j = MatrixMult.matCFinal s2 i j) ∧
    Lab2K2.sumFinal s1 = Lab2K2.sumFinal s2 ∧
    (∀ i, Kernel5.hFinal s1 i = Kernel5.hFinal s2 i) := by
  have hs : s1 = s2 := funext h
  subst hs
  exact ⟨rfl, fun _ _ => rfl, rfl, fun _ => rfl⟩

/-- Witness for rand_kernels_deterministic at the identity stream. -/
theorem rand_kernels_deterministic_witness :
    (∀ t : ℕ, (fun u : ℕ => u) t = (fun u : ℕ => u) t) ∧
    MatrixMult.checksums (fun u : ℕ => u) = MatrixMult.checksums (fun u : ℕ => u) :=
  ⟨fun _ => rfl,
    (rand_kernels_deterministic (fun u : ℕ => u) (fun u : ℕ => u) (fun _ => rfl)).1⟩

/-- Claim C7 counterexample: kernel5.c prints only the line Done., which is
neither a timing line nor a checksum line. -/
theorem kernel5_prints_no_timing_no_checksum :
    Outputs.printsTimingLine Outputs.kernel5Lines = false ∧
    Outputs.printsChecksumLine Outputs.kernel5Lines = false := by
  decide

/-- Claim C7 (amended): the three heap-based kernels print separate timing
and checksum lines and mmm.c prints one line carrying both, but kernel5.c
prints neither, and Lab_1/kernel2.c, Lab_2/kernel2.c and Lab_2/kernel4.c
print a result or checksum line with no timing line. -/
theorem program_output_shapes :
    Outputs.printsTimingLine Outputs.imageBlurLines = true ∧
    Outputs.printsChecksumLine Outputs.imageBlurLines = true ∧
    Outputs.printsTimingLine Outputs.matrixMultLines = true ∧
    Outputs.printsChecksumLine Outputs.matrixMultLines = true ∧
    Outputs.printsTimingLine Outputs.streamBenchLines = true ∧
    Outputs.printsChecksumLine Outputs.streamBenchLines = true ∧
    Outputs.printsTimingLine Outputs.mmmLines = true ∧
    Outputs.printsChecksumLine Outputs.mmmLines = true ∧
    Outputs.printsTimingLine Outputs.kernel5Lines = false ∧
    Outputs.printsChecksumLine Outputs.kernel5Lines = false ∧
    Outputs.printsTimingLine Outputs.lab1Kernel2Lines = false ∧
    Outputs.printsChecksumLine Outputs.lab1Kernel2Lines = true ∧
    Outputs.printsTimingLine Outputs.lab2Kernel2Lines = false ∧
    Outputs.printsChecksumLine Outputs.lab2Kernel2Lines = true ∧
    Outputs.printsTimingLine Outputs.lab2Kernel4Lines = false ∧
    Outputs.printsChecksumLine Outputs.lab2Kernel4Lines = true :=
  ⟨rfl, rfl, rfl, rfl, rfl, rfl, rfl, rfl, rfl, rfl, rfl, rfl, rfl, rfl, rfl, rfl⟩

/-- If the guard diff > 0 fails on every visited index, the guarded
accumulation leaves sum unchanged. -/
theorem lab1_guard_never_taken (l : List ℕ) :
    ∀ s : ℚ, (∀ i ∈ l, ¬ (Lab1K2.A i - Lab1K2.B i > 0)) →
      List.foldl (fun s i => let d := Lab1K2.A i - Lab1K2.B i; if d > 0 then s + d else s)
        s l = s := by
  induction l with
  | nil => intro s _; rfl
  | cons i l ih =>
    intro s h
    rw [List.foldl_cons]
    have hni : ¬ (Lab1K2.A i - Lab1K2.B i > 0) := h i (List.mem_cons_self i l)
    simp only [if_neg hni]
    exact ih s (fun j hj => h j (List.mem_cons_of_mem i hj))

/-- Claim C9: in Lab_1/kernels/kernel2.c the difference A[i] - B[i] equals
i - SIZE, negative for every i below SIZE, so the branch sum += diff never
fires and the printed final sum is 0. -/
theorem lab1_kernel2_sum_zero : Lab1K2.sumFinal = 0 := by
  rw [Lab1K2.sumFinal]
  apply lab1_guard_never_taken
  intro i hi
  have hi10 : i < Lab1K2.SIZE := List.mem_range.mp hi
  have hq : (i : ℚ) < 10000 := by
    have h2 : i < 10000 := by simpa [Lab1K2.SIZE] using hi10
    exact_mod_cast h2
  simp only [gt_iff_lt, not_lt, Lab1K2.A, Lab1K2.B, Lab1K2.SIZE]
  push_cast
  linarith

namespace ImageBlur

/-- The inner column write loop of initialize_image at column x rewrites
exactly the cells (y, x) with y below m to (x + y) % 256. -/
theorem initImageInner_eq (x : ℕ) :
    ∀ (m : ℕ) (img : ℕ → ℕ → ℕ),
      List.foldl (fun img y => upd2 img y x ((x + y) % 256)) img (List.range m)
        = fun y2 x2 => if y2 < m ∧ x2 = x then (x + y2) % 256 else img y2 x2 := by
  intro m
  induction m with
  | zero =>
    intro img
    funext y2 x2
    simp
  | succ m ih =>
    intro img
    rw [List.range_succ, List.foldl_append, List.foldl_cons, List.foldl_nil, ih img]
    funext y2 x2
    by_cases h : y2 = m ∧ x2 = x
    · obtain ⟨rfl, rfl⟩ := h
      rw [upd2_apply_self]
      simp
    · rw [upd2_apply_ne _ _ _ _ _ _ h]
      by_cases h2 : y2 < m ∧ x2 = x
      · obtain ⟨h2a, rfl⟩ := h2
        simp [h2a, Nat.lt_succ_of_lt h2a]
      · have h3 : ¬(y2 < m + 1 ∧ x2 = x) := by
          rintro ⟨hlt, rfl⟩
          rcases Nat.lt_succ_iff_lt_or_eq.mp hlt with h4 | rfl
          · exact h2 ⟨h4, rfl⟩
          · exact h ⟨rfl, rfl⟩
        simp only [if_neg h2, if_neg h3]

/-- The full initialize_image double loop rewrites exactly the cells with
column below m and row below h to (x + y) % 256. -/
theorem initImageOuter_eq (h : ℕ) :
    ∀ (m : ℕ) (img : ℕ → ℕ → ℕ),
      List.foldl
        (fun img x => List.foldl (fun img y => upd2 img y x ((x + y) % 256)) img (List.range h))
        img (List.range m)
        = fun y2 x2 => if x2 < m ∧ y2 < h then (x2 + y2) % 256 else img y2 x2 := by
  intro m
  induction m with
  | zero =>
    intro img
    funext y2 x2
    simp
  | succ m ih =>
    intro img
    rw [List.range_succ, List.foldl_append, List.foldl_cons, List.foldl_nil, ih img,
      initImageInner_eq m h]
    funext y2 x2
    by_cases h1 : y2 < h ∧ x2 = m
    · obtain ⟨h1a, rfl⟩ := h1
      rw [if_pos (And.intro h1a rfl), if_pos (And.intro (Nat.lt_succ_self x2) h1a)]
    · by_cases h2 : x2 < m ∧ y2 < h
      · obtain ⟨h2a, h2b⟩ := h2
        have h5 : ¬(y2 < h ∧ x2 = m) := h1
        simp only [if_neg h5, if_pos (And.intro h2a h2b),
          if_pos (And.intro (Nat.lt_succ_of_lt h2a) h2b)]
      · have h3 : ¬(x2 < m + 1 ∧ y2 < h) := by
          rintro ⟨hlt, hn⟩
          rcases Nat.lt_succ_iff_lt_or_eq.mp hlt with h4 | rfl
          · exact h2 ⟨h4, hn⟩
          · exact h1 ⟨hn, rfl⟩
        simp only [if_neg h1, if_neg h2, if_neg h3]

end ImageBlur

/-- Claim C10: after initialize_image(image, width, height), every pixel with
x below width and y below height holds (x + y) % 256. -/
theorem initialize_image_sets_every_pixel (img : ℕ → ℕ → ℕ) (w h x y : ℕ)
    (hx : x < w) (hy : y < h) :
    ImageBlur.initialize_image img w h y x = (x + y) % 256 := by
  unfold ImageBlur.initialize_image
  rw [ImageBlur.initImageOuter_eq h w img]
  simp [hx, hy]

/-- Witness for initialize_image_sets_every_pixel at pixel x = 3, y = 5 of a
512 x 512 image. -/
theorem initialize_image_sets_every_pixel_witness :
    (3 < ImageBlur.WIDTH ∧ 5 < ImageBlur.HEIGHT) ∧
    ImageBlur.initialize_image (fun _ _ => 0) ImageBlur.WIDTH ImageBlur.HEIGHT 5 3
      = (3 + 5) % 256 := by
  refine ⟨⟨by norm_num [ImageBlur.WIDTH], by norm_num [ImageBlur.HEIGHT]⟩, ?_⟩
  exact initialize_image_sets_every_pixel (fun _ _ => 0) ImageBlur.WIDTH ImageBlur.HEIGHT
    3 5 (by norm_num [ImageBlur.WIDTH]) (by norm_num [ImageBlur.HEIGHT])

/-- Reading through a fold is the identity when every step preserves the
reading. -/
theorem foldl_read_const {γ δ : Type} (F : γ → ℕ → γ) (read : γ → δ) :
    ∀ (l : List ℕ) (g : γ),
      (∀ (g2 : γ) (t : ℕ), t ∈ l → read (F g2 t) = read g2) →
      read (List.foldl F g l) = read g := by
  intro l
  induction l with
  | nil => intro g _; rfl
  | cons t l ih =>
    intro g h
    rw [List.foldl_cons, ih (F g t) (fun g2 u hu => h g2 u (List.mem_cons_of_mem t hu)),
      h g t (List.mem_cons_self t l)]

/-- Claim C8: image_blur writes only interior pixels: any output pixel with
x below 2 or at least width - 2, or y below 2 or at least height - 2, keeps
whatever value the output array held before the call. -/
theorem image_blur_frame (input out : ℕ → ℕ → ℕ) (w h y x : ℕ)
    (hb : x < 2 ∨ w - 2 ≤ x ∨ y < 2 ∨ h - 2 ≤ y) :
    ImageBlur.image_blur input out w h y x = out y x := by
  unfold ImageBlur.image_blur
  refine foldl_read_const _ (fun o => o y x) _ out ?_
  intro o x0 hx0
  have hx0m : 2 ≤ x0 ∧ x0 < 2 + (w - 4) := List.mem_range'_1.mp hx0
  refine foldl_read_const _ (fun o => o y x) _ o ?_
  intro o2 y0 hy0
  have hy0m : 2 ≤ y0 ∧ y0 < 2 + (h - 4) := List.mem_range'_1.mp hy0
  show upd2 o2 y0 x0 _ y x = o2 y x
  refine upd2_apply_ne _ _ _ _ _ _ ?_
  rintro ⟨rfl, rfl⟩
  omega

/-- Witness for image_blur_frame at the corner pixel (0, 0). -/
theorem image_blur_frame_witness :
    ((0 : ℕ) < 2 ∨ ImageBlur.WIDTH - 2 ≤ 0 ∨ (0 : ℕ) < 2 ∨ ImageBlur.HEIGHT - 2 ≤ 0) ∧
    ImageBlur.image_blur (fun y x => (x + y) % 256) (fun _ _ => 7)
      ImageBlur.WIDTH ImageBlur.HEIGHT 0 0 = 7 := by
  refine ⟨Or.inl (by norm_num), ?_⟩
  have h := image_blur_frame (fun y x => (x + y) % 256) (fun _ _ => 7)
    ImageBlur.WIDTH ImageBlur.HEIGHT 0 0 (Or.inl (by norm_num))
  simpa using h
